import Mathlib

/-!
# ucorf server dispatch core

A shallow embedding of `src/ucorf/server_impl.cpp` (`ServerImpl::RegisterService`,
`ServerImpl::RemoveService`, `ServerImpl::OnReceiveData`, `ServerImpl::DispatchMsg`) and of
`src/ucorf/pb_message.cpp` (`Pb_Message::Serialize`, `ByteSize`, `Parse`).

Conventions.

* `size_t` is a natural number below `SIZE_MOD = 2 ^ 64`; every `size_t` addition and
  subtraction of `OnReceiveData` is written with an explicit `% SIZE_MOD`.
* A `const char*` into the receive buffer is the list of the bytes from that address to the
  end of the buffer; `data + n` is `data.drop n`.
* The interfaces `IHeader`, `IMessage`, `IService` are declared in headers that are not part
  of the sources at hand; they are records of the member functions that the code calls.
* Side effects (calls of `DispatchMsg`, of a service handler, of the transport's `Send`, and
  `co_yield`) are recorded, in program order, in a list of `Event`s.
* The `while` loop of `OnReceiveData` is run with a fuel counter: one unit per iteration.
-/

namespace ucorf

/-- One `char` of a buffer. -/
abbrev Byte := Nat

/-- The modulus of `size_t` arithmetic. -/
def SIZE_MOD : Nat := 2 ^ 64

/-- The value of `(size_t)-1`, returned by `OnReceiveData` when dispatch fails. -/
def FATAL : Nat := SIZE_MOD - 1

/-- The C++ `eHeaderType`. -/
inductive eHeaderType
  | request
  | oneway_request
  | response
  deriving DecidableEq, Repr

/-- The state of an `IHeader` as seen through its getters: `GetId`, `GetType`, `GetService`,
`GetMethod`, `GetFollowBytes`. -/
structure Header where
  id : Nat
  type : eHeaderType
  service : String
  method : String
  follow_bytes : Nat
  deriving DecidableEq, Repr

instance : Inhabited Header := ⟨⟨0, eHeaderType.request, "", "", 0⟩⟩

/-- The member functions of `IHeader` that act on bytes, as produced by `head_factory_`:
`Parse (buf, len)` is given the window of `len` bytes and returns `head_len` together with the
header it filled in; `Serialize h len` returns the bytes written (`none` for `false`). -/
structure HeaderFactory where
  Parse : List Byte → Nat × Header
  ByteSize : Header → Nat
  Serialize : Header → Nat → Option (List Byte)

/-- An `IMessage` returned by a handler: `ByteSize ()` and `Serialize (buf, len)`, the latter
returning the bytes written, or `none` for `false`. -/
structure IMessage where
  ByteSize : Nat
  Serialize : Nat → Option (List Byte)

/-- An `IService`: `name ()` and `CallMethod (method, data, bytes)`, which is handed the
`bytes` bytes at `data`; `none` is the null pointer. -/
structure IService where
  name : String
  CallMethod : String → List Byte → Option IMessage

/-- The observable actions of the server. -/
inductive Event
  | dispatch (header : Header) (payload : List Byte)
  | call (service : String) (method : String) (payload : List Byte)
  | send (tp : Nat) (sess : Nat) (buf : List Byte)
  | co_yield
  deriving DecidableEq, Repr

/-- The fields of `ServerImpl` used by dispatch: the registry `services_` (a map keyed by the
service name) and the header factory. -/
structure ServerImpl where
  services_ : List (String × IService)
  head_factory_ : HeaderFactory

/-- A `Session`: connection id, transport, header. -/
structure Session where
  sess : Nat
  transport : Nat
  header : Header

/-- The lookup `services_.find (name)`; `none` is `services_.end ()`. -/
def find : List (String × IService) → String → Option IService
  | [], _ => none
  | (k, v) :: rest, name => if k = name then some v else find rest name

/-- Embeds `ServerImpl::RegisterService`: `services_.insert (make_pair (name, service)).second`.
Returns the registry after the call and the boolean result. -/
def RegisterService (services_ : List (String × IService)) (service : IService) :
    List (String × IService) × Bool :=
  let name := service.name
  match find services_ name with
  | some _ => (services_, false)
  | none => (services_ ++ [(name, service)], true)

/-- Embeds `ServerImpl::RemoveService`: `services_.erase (service_name)`. -/
def RemoveService (services_ : List (String × IService)) (service_name : String) :
    List (String × IService) :=
  services_.filter (fun p => decide (p.1 ≠ service_name))

/-- The operations that change the registry. -/
inductive RegistryOp
  | register (service : IService)
  | remove (service_name : String)

/-- Apply one registry operation. -/
def applyOp (services_ : List (String × IService)) : RegistryOp → List (String × IService)
  | RegistryOp.register s => (RegisterService services_ s).1
  | RegistryOp.remove n => RemoveService services_ n

/-- The registry reached from the empty one by a sequence of operations. -/
def runOps (ops : List RegistryOp) : List (String × IService) :=
  ops.foldl applyOp []

/-- Writing `bs` into `buf` at offset `off` (the writes of `Serialize (&buf[off], _)`). -/
def writeAt (buf : List Byte) (off : Nat) (bs : List Byte) : List Byte :=
  buf.take off ++ bs ++ buf.drop (off + bs.length)

/-- Embeds `ServerImpl::DispatchMsg (sess, data, bytes)`. Returns the boolean result, the
header of the session after the call, and the events performed. The handler is handed the
`bytes` bytes at `data` that lie in the buffer. The result of `header->Serialize` is not
looked at by the code; `buf.resize` fills the buffer with zeros, and the two sizes added are
sizes of objects in memory, whose sum is below `2 ^ 64`. -/
def DispatchMsg (srv : ServerImpl) (sess : Session) (data : List Byte) (bytes : Nat) :
    Bool × Header × List Event :=
  let srv_name := sess.header.service
  match find srv.services_ srv_name with
  | none => (false, sess.header, [])
  | some service =>
    let called := Event.call service.name sess.header.method (data.take bytes)
    match service.CallMethod sess.header.method (data.take bytes) with
    | none => (true, sess.header, [called])
    | some response =>
      if sess.header.type ≠ eHeaderType.oneway_request then
        let h1 : Header := { sess.header with type := eHeaderType.response }
        let h2 : Header := { h1 with follow_bytes := response.ByteSize }
        let hsize := srv.head_factory_.ByteSize h2
        let buf0 : List Byte := List.replicate (hsize + response.ByteSize) 0
        let buf1 : List Byte :=
          match srv.head_factory_.Serialize h2 hsize with
          | some hb => writeAt buf0 0 hb
          | none => buf0
        match response.Serialize response.ByteSize with
        | none => (true, h2, [called])
        | some rb =>
          (true, h2, [called, Event.send sess.transport sess.sess (writeAt buf1 hsize rb)])
      else (true, sess.header, [called])

/-- The local variables of `OnReceiveData` that the loop updates. The `int yield_c` counts
one per dispatched frame; it is a natural number here, which is exact below `2 ^ 31` frames in
one invocation. -/
structure LoopState where
  consume : Nat
  buf : List Byte
  len : Nat
  yield_c : Nat
  deriving DecidableEq, Repr

/-- The ways one evaluation of the loop condition and body can end. -/
inductive Step
  | brk
  | fatal (evs : List Event)
  | next (st : LoopState) (evs : List Event)
  deriving DecidableEq, Repr

/-- One evaluation of `while (consume < bytes) { ... }` in `OnReceiveData`: `brk` when the
condition is false or a `break` is taken, `fatal` for `return -1`, `next` for a completed
iteration. -/
def loopBody (srv : ServerImpl) (tp sess_id : Nat) (data : List Byte) (st : LoopState) : Step :=
  let bytes := data.length
  if st.consume < bytes then
    let parsed := srv.head_factory_.Parse (st.buf.take st.len)
    let head_len := parsed.1
    let header := parsed.2
    if head_len = 0 then Step.brk
    else
      let follow_bytes := header.follow_bytes
      if (head_len + follow_bytes) % SIZE_MOD > st.len then Step.brk
      else
        let sess : Session := ⟨sess_id, tp, header⟩
        let called := Event.dispatch header ((st.buf.drop head_len).take follow_bytes)
        let d := DispatchMsg srv sess (st.buf.drop head_len) follow_bytes
        if d.1 = false then Step.fatal (called :: d.2.2)
        else
          let consume := (st.consume + (head_len + follow_bytes) % SIZE_MOD) % SIZE_MOD
          let buf := data.drop consume
          let len := (bytes + SIZE_MOD - consume) % SIZE_MOD
          let yield_c := st.yield_c + 1
          Step.next ⟨consume, buf, len, yield_c⟩
            (called :: d.2.2 ++ (if yield_c % 256 = 0 then [Event.co_yield] else []))
  else Step.brk

/-- The loop of `OnReceiveData` followed by the code after it; `none` when the fuel does not
cover the iterations. The result is the returned `size_t` and the events. -/
def whileLoop (srv : ServerImpl) (tp sess_id : Nat) (data : List Byte) :
    Nat → LoopState → Option (Nat × List Event)
  | 0, _ => none
  | fuel + 1, st =>
    match loopBody srv tp sess_id data st with
    | Step.brk => some (st.consume, if st.yield_c ≤ 255 then [Event.co_yield] else [])
    | Step.fatal evs => some (FATAL, evs)
    | Step.next st2 evs =>
      (whileLoop srv tp sess_id data fuel st2).map (fun r => (r.1, evs ++ r.2))

/-- Embeds `ServerImpl::OnReceiveData (tp, sess_id, data, bytes)` with `bytes = data.length`. -/
def OnReceiveData (srv : ServerImpl) (tp sess_id : Nat) (data : List Byte) (fuel : Nat) :
    Option (Nat × List Event) :=
  whileLoop srv tp sess_id data fuel ⟨0, data, data.length, 0⟩

/-- Completed loop iterations: `iterate k st` is the state after `k` iterations that all ran
to the end of the body, with the events performed, and `none` if one of them left the loop. -/
def iterate (srv : ServerImpl) (tp sess_id : Nat) (data : List Byte) :
    Nat → LoopState → Option (LoopState × List Event)
  | 0, st => some (st, [])
  | k + 1, st =>
    match loopBody srv tp sess_id data st with
    | Step.next st2 evs =>
      (iterate srv tp sess_id data k st2).map (fun r => (r.1, evs ++ r.2))
    | _ => none

/-! ## Reading a trace -/

/-- The frames handed to `DispatchMsg`, in order. -/
def dispatched : List Event → List (Header × List Byte)
  | [] => []
  | Event.dispatch h p :: rest => (h, p) :: dispatched rest
  | _ :: rest => dispatched rest

/-- The buffers handed to the transport's `Send`, in order, with transport and connection. -/
def sends : List Event → List (Nat × Nat × List Byte)
  | [] => []
  | Event.send tp s b :: rest => (tp, s, b) :: sends rest
  | _ :: rest => sends rest

/-- The handler calls, in order. -/
def calls : List Event → List (String × String × List Byte)
  | [] => []
  | Event.call s m p :: rest => (s, m, p) :: calls rest
  | _ :: rest => calls rest

/-- The number of `co_yield`s. -/
def yields : List Event → Nat
  | [] => 0
  | Event.co_yield :: rest => yields rest + 1
  | _ :: rest => yields rest

/-! ## The transport's side of the receive callback -/

/-- A connection as the transport keeps it: the bytes received and not yet consumed, and
whether the connection was closed. -/
structure Conn where
  pending : List Byte
  closed : Bool
  deriving DecidableEq, Repr

/-- Modelled from the spec: the transport that invokes the receive callback is not among the
sources. On an arrival it hands the callback the unconsumed bytes followed by the new ones,
keeps the suffix the callback did not consume, and closes the connection on the fatal
sentinel. The fuel covers one iteration per byte of the buffer and one more. -/
def deliver (srv : ServerImpl) (tp sess_id : Nat) (c : Conn) (chunk : List Byte) :
    Option (Conn × List Event) :=
  if c.closed then some (c, [])
  else
    let buffer := c.pending ++ chunk
    match OnReceiveData srv tp sess_id buffer (buffer.length + 1) with
    | none => none
    | some (ret, evs) =>
      if ret = FATAL then some (⟨[], true⟩, evs)
      else some (⟨buffer.drop ret, false⟩, evs)

/-- Modelled from the spec: successive deliveries on one connection; the events of all
invocations of the callback, in order. -/
def deliverAll (srv : ServerImpl) (tp sess_id : Nat) : Conn → List (List Byte) → Option (List Event)
  | _, [] => some []
  | c, chunk :: rest =>
    match deliver srv tp sess_id c chunk with
    | none => none
    | some (c2, evs) => (deliverAll srv tp sess_id c2 rest).map (fun r => evs ++ r)

/-! ## `Pb_Message` -/

/-- The `::google::protobuf::Message` behind a `Pb_Message`, through the three members that
`Pb_Message` calls: `SerializeToArray (data, size)` with its `int size` (the bytes written,
`none` for `false`), `ByteSize ()`, and `ParseFromArray (buf, len)`, whose result is a
`bool`. -/
structure ProtoMessage where
  SerializeToArray : Int → Option (List Byte)
  ByteSize : Nat
  ParseFromArray : List Byte → Bool

/-- The conversion of a `std::size_t` to the 32-bit `int` of a protobuf size argument: the
value modulo `2 ^ 32`, read as a signed number. -/
def toInt32 (n : Nat) : Int :=
  if n % 2 ^ 32 < 2 ^ 31 then ((n % 2 ^ 32 : Nat) : Int)
  else ((n % 2 ^ 32 : Nat) : Int) - 2 ^ 32

/-- The fields of `Pb_Message`; `msg_ = none` is the null pointer. -/
structure Pb_Message where
  msg_ : Option ProtoMessage
  own_ : Bool

/-- Embeds `Pb_Message::Serialize (buf, len)`: the `std::size_t len` is passed to the `int`
parameter of `SerializeToArray`. -/
def Pb_Message.Serialize (m : Pb_Message) (len : Nat) : Option (List Byte) :=
  match m.msg_ with
  | none => none
  | some g => g.SerializeToArray (toInt32 len)

/-- Embeds `Pb_Message::ByteSize ()`. -/
def Pb_Message.ByteSize (m : Pb_Message) : Nat :=
  match m.msg_ with
  | none => 0
  | some g => g.ByteSize

/-- Embeds `Pb_Message::Parse (buf, len)`: the `bool` of `ParseFromArray` converted to the
`std::size_t` return type, `true` becoming `1` and `false` becoming `0`. -/
def Pb_Message.Parse (m : Pb_Message) (buf : List Byte) : Nat :=
  match m.msg_ with
  | none => 0
  | some g => (g.ParseFromArray buf).toNat

/-! ## Frames of a byte stream, as the specification words them -/

/-- The relation between the loop variables of `OnReceiveData` at the head of the loop:
`buf = data + consume` and `len = bytes - consume`, with `consume` inside the buffer. -/
def LoopInv (data : List Byte) (st : LoopState) : Prop :=
  st.consume ≤ data.length ∧ st.buf = data.drop st.consume ∧
    st.len = data.length - st.consume

/-- No window makes `head_len + follow_bytes` reach `2 ^ 64`. -/
def NoWrap (srv : ServerImpl) : Prop :=
  ∀ w, (srv.head_factory_.Parse w).1 + (srv.head_factory_.Parse w).2.follow_bytes < SIZE_MOD

/-- A header, once complete in a window, is parsed the same whatever bytes follow. -/
def ParseStable (srv : ServerImpl) : Prop :=
  ∀ w e, (srv.head_factory_.Parse w).1 ≠ 0 →
    srv.head_factory_.Parse (w ++ e) = srv.head_factory_.Parse w

/-- The outcome of reading frames off the front of a byte sequence: the frames, the number of
bytes they occupy, and whether reading ended at a frame for an unregistered service. -/
structure ReadResult where
  frames : List (Header × List Byte)
  consumed : Nat
  fatal : Bool
  deriving DecidableEq, Repr

/-- The frames laid out back to back from the start of `w`, after the words of the
specification (§4.4, §6): a frame is a header followed by the follow-bytes it declares;
reading stops at an incomplete header, at an incomplete payload, and after a frame whose
service is not registered. This is written from the specification, with exact arithmetic, to
be compared with `OnReceiveData`. The first argument bounds the number of frames. -/
def readFrames (srv : ServerImpl) : Nat → List Byte → ReadResult
  | 0, _ => ⟨[], 0, false⟩
  | n + 1, w =>
    let parsed := srv.head_factory_.Parse w
    if parsed.1 = 0 ∨ w.length < parsed.1 + parsed.2.follow_bytes then ⟨[], 0, false⟩
    else if (find srv.services_ parsed.2.service).isNone then
      ⟨[(parsed.2, (w.drop parsed.1).take parsed.2.follow_bytes)], 0, true⟩
    else
      let r := readFrames srv n (w.drop (parsed.1 + parsed.2.follow_bytes))
      ⟨(parsed.2, (w.drop parsed.1).take parsed.2.follow_bytes) :: r.frames,
        parsed.1 + parsed.2.follow_bytes + r.consumed, r.fatal⟩

/-- The frames at the front of `w`, with room for one frame per byte. -/
def readAll (srv : ServerImpl) (w : List Byte) : ReadResult :=
  readFrames srv (w.length + 1) w

/-- Reading `r` continued by reading `r2` from where `r` stopped; a fatal `r` ends it. -/
def ReadResult.andThen (r r2 : ReadResult) : ReadResult :=
  if r.fatal then r else ⟨r.frames ++ r2.frames, r.consumed + r2.consumed, r2.fatal⟩

/-- The `size_t` that `OnReceiveData` is to return for a reading that started at offset
`consume`. -/
def returnOf (consume : Nat) (r : ReadResult) : Nat :=
  if r.fatal then FATAL else consume + r.consumed

/-! ## A concrete wire format and service, used to evaluate the code on explicit inputs

The header on the wire is twelve bytes: type, message id, one character of service name, one
character of method name, and the follow-bytes field as eight little-endian bytes. -/

/-- The number written in little-endian bytes. -/
def leNat : List Byte → Nat
  | [] => 0
  | b :: bs => b % 256 + 256 * leNat bs

/-- The `k` little-endian bytes of a number. -/
def leBytes : Nat → Nat → List Byte
  | 0, _ => []
  | k + 1, n => n % 256 :: leBytes k (n / 256)

/-- Decoding of the type byte. -/
def demoType (b : Byte) : eHeaderType :=
  if b = 1 then eHeaderType.oneway_request
  else if b = 2 then eHeaderType.response
  else eHeaderType.request

/-- Encoding of the type byte. -/
def demoTypeCode : eHeaderType → Byte
  | eHeaderType.request => 0
  | eHeaderType.oneway_request => 1
  | eHeaderType.response => 2

/-- A one-character name. -/
def demoName (b : Byte) : String := String.singleton (Char.ofNat b)

/-- The code of the first character of a name. -/
def demoNameCode (s : String) : Byte := (s.get 0).toNat

/-- The `Parse` of the twelve-byte header: `0` while fewer than twelve bytes are in the window. -/
def demoParse (w : List Byte) : Nat × Header :=
  if w.length < 12 then (0, default)
  else (12, ⟨w.getD 1 0, demoType (w.getD 0 0), demoName (w.getD 2 0), demoName (w.getD 3 0),
    leNat ((w.drop 4).take 8)⟩)

/-- The `Serialize` of the twelve-byte header: fails on a buffer shorter than twelve bytes. -/
def demoSerialize (h : Header) (len : Nat) : Option (List Byte) :=
  if len < 12 then none
  else some ([demoTypeCode h.type, h.id % 256, demoNameCode h.service, demoNameCode h.method]
    ++ leBytes 8 h.follow_bytes)

/-- The twelve-byte header implementation. -/
def demoFactory : HeaderFactory := ⟨demoParse, fun _ => 12, demoSerialize⟩

/-- A message whose serialized form is the given bytes. -/
def bytesMessage (bs : List Byte) : IMessage :=
  ⟨bs.length, fun len => if len < bs.length then none else some bs⟩

/-- A message that cannot be serialized. -/
def brokenMessage : IMessage := ⟨3, fun _ => none⟩

/-- A service `S` whose method `M` answers with the request payload, whose method `B` answers
with a message that fails to serialize, and which knows no other method. -/
def echoService : IService :=
  ⟨"S", fun method data =>
    if method = "M" then some (bytesMessage data)
    else if method = "B" then some brokenMessage
    else none⟩

/-- A server with the twelve-byte header and the single service `S`. -/
def demoServer : ServerImpl := ⟨[("S", echoService)], demoFactory⟩

/-- The wire bytes of a header with the given type byte, id, service and method characters and
follow-bytes field. -/
def demoHeaderBytes (t i s m : Byte) (fb : Nat) : List Byte :=
  [t, i, s, m] ++ leBytes 8 fb

/-- A protobuf message without fields that accepts every input and serializes to nothing. -/
def emptyProto : ProtoMessage := ⟨fun _ => some [], 0, fun _ => true⟩

/-- Three frames back to back: a one-way call of `S.M` with payload `9`, a request to the
unregistered service `T`, and a request to `S.M`. -/
def demoThreeFrames : List Byte :=
  demoHeaderBytes 1 42 83 77 1 ++ [9] ++ demoHeaderBytes 0 43 84 77 0
    ++ demoHeaderBytes 0 44 83 77 0

/-- Twelve header bytes whose follow-bytes field is `2 ^ 64 - 1`. -/
def demoOverrun : List Byte := demoHeaderBytes 0 42 83 77 (2 ^ 64 - 1)

/-- Twelve header bytes of a one-way call whose follow-bytes field is `2 ^ 64 - 12`. -/
def demoZeroAdvance : List Byte := demoHeaderBytes 1 42 83 77 (2 ^ 64 - 12)

/-- The `Parse` of an eight-byte header: type, id, service, method and a follow-bytes field of
four little-endian bytes. -/
def demoParse4 (w : List Byte) : Nat × Header :=
  if w.length < 8 then (0, default)
  else (8, ⟨w.getD 1 0, demoType (w.getD 0 0), demoName (w.getD 2 0), demoName (w.getD 3 0),
    leNat ((w.drop 4).take 4)⟩)

/-- The `Serialize` of the eight-byte header. -/
def demoSerialize4 (h : Header) (len : Nat) : Option (List Byte) :=
  if len < 8 then none
  else some ([demoTypeCode h.type, h.id % 256, demoNameCode h.service, demoNameCode h.method]
    ++ leBytes 4 h.follow_bytes)

/-- A server with the eight-byte header and the single service `S`. -/
def demoServer4 : ServerImpl := ⟨[("S", echoService)], ⟨demoParse4, fun _ => 8, demoSerialize4⟩⟩

/-- One frame in the eight-byte format: a one-way call of `S.M` with payload `9 8`. -/
def demoFrame4 : List Byte := [1, 42, 83, 77, 2, 0, 0, 0, 9, 8]

end ucorf

/-! # Theorems -/

namespace ucorf

/-! ## The registry -/

theorem find_eq_none_iff (l : List (String × IService)) (n : String) :
    find l n = none ↔ n ∉ l.map Prod.fst := by
  induction l with
  | nil => simp [find]
  | cons p rest ih =>
    obtain ⟨k, v⟩ := p
    by_cases h : k = n
    · simp [find, h]
    · have h2 : ¬ n = k := fun e => h e.symm
      simp [find, h, h2, ih]

theorem find_append_single (l : List (String × IService)) (k n : String) (v : IService) :
    find (l ++ [(k, v)]) n =
      match find l n with
      | some w => some w
      | none => if k = n then some v else none := by
  induction l with
  | nil => simp [find]
  | cons p rest ih =>
    obtain ⟨k2, v2⟩ := p
    by_cases h : k2 = n
    · simp [find, h]
    · simp [find, h, ih]

theorem keys_nodup_RegisterService (l : List (String × IService)) (s : IService)
    (h : (l.map Prod.fst).Nodup) : ((RegisterService l s).1.map Prod.fst).Nodup := by
  cases hf : find l s.name with
  | some w => simpa [RegisterService, hf] using h
  | none =>
    have hn := (find_eq_none_iff l s.name).1 hf
    simp only [RegisterService, hf, List.map_append, List.map_cons, List.map_nil]
    rw [List.nodup_append]
    refine ⟨h, List.nodup_singleton _, ?_⟩
    intro a ha hb
    simp only [List.mem_singleton] at hb
    subst hb
    exact hn ha

theorem keys_nodup_RemoveService (l : List (String × IService)) (n : String)
    (h : (l.map Prod.fst).Nodup) : ((RemoveService l n).map Prod.fst).Nodup := by
  unfold RemoveService
  exact List.Nodup.sublist (List.Sublist.map _ (List.filter_sublist l)) h

theorem keys_nodup_foldl (ops : List RegistryOp) :
    ∀ l : List (String × IService), (l.map Prod.fst).Nodup →
      ((ops.foldl applyOp l).map Prod.fst).Nodup := by
  induction ops with
  | nil => intro l h; simpa using h
  | cons op rest ih =>
    intro l h
    simp only [List.foldl_cons]
    apply ih
    cases op with
    | register s => exact keys_nodup_RegisterService l s h
    | remove n => exact keys_nodup_RemoveService l n h

/-- C6. `RegisterService` on a registry that has no service of that name returns `true`, maps
the name to the new service and leaves every other name as it was; on a registry that already
maps the name to a service `first` it returns `false` and leaves the registry unchanged, so
`first` is still the service of that name; and in every registry reached from the empty one by
`RegisterService` and `RemoveService` calls the names are pairwise distinct. -/
theorem C6_RegisterService_unique (services_ : List (String × IService)) (service : IService) :
    (find services_ service.name = none →
      (RegisterService services_ service).2 = true ∧
      find (RegisterService services_ service).1 service.name = some service ∧
      ∀ n, n ≠ service.name →
        find (RegisterService services_ service).1 n = find services_ n) ∧
    (∀ first, find services_ service.name = some first →
      (RegisterService services_ service).2 = false ∧
      (RegisterService services_ service).1 = services_ ∧
      find (RegisterService services_ service).1 service.name = some first) ∧
    (∀ ops : List RegistryOp, ((runOps ops).map Prod.fst).Nodup) := by
  refine ⟨?_, ?_, ?_⟩
  · intro hf
    refine ⟨?_, ?_, ?_⟩
    · simp [RegisterService, hf]
    · simp [RegisterService, hf, find_append_single]
    · intro n hn
      have hn2 : ¬ service.name = n := fun e => hn e.symm
      simp only [RegisterService, hf, find_append_single]
      cases find services_ n <;> simp [hn2]
  · intro first hf
    simp [RegisterService, hf]
  · intro ops
    exact keys_nodup_foldl ops [] (by simp)

/-- C6, at the registry holding `S`: a service named `T` is added, a second `S` is refused. -/
theorem C6_RegisterService_unique_witness :
    (RegisterService demoServer.services_ ⟨"T", echoService.CallMethod⟩).2 = true ∧
    (RegisterService demoServer.services_ echoService).2 = false ∧
    (RegisterService demoServer.services_ echoService).1 = demoServer.services_ :=
  ⟨((C6_RegisterService_unique demoServer.services_ ⟨"T", echoService.CallMethod⟩).1
      rfl).1,
    ((C6_RegisterService_unique demoServer.services_ echoService).2.1 echoService rfl).1,
    ((C6_RegisterService_unique demoServer.services_ echoService).2.1 echoService rfl).2.1⟩

/-! ## `DispatchMsg` -/

/-- C9. `DispatchMsg` returns `false` exactly when the header's service name is not in the
registry. For a registered service it returns `true` without calling `Send` both when the
handler returns no response and when the response fails to serialize. -/
theorem C9_DispatchMsg_false_iff_unregistered (srv : ServerImpl) (sess : Session)
    (data : List Byte) (bytes : Nat) :
    ((DispatchMsg srv sess data bytes).1 = false ↔
      find srv.services_ sess.header.service = none) ∧
    (∀ service, find srv.services_ sess.header.service = some service →
      service.CallMethod sess.header.method (data.take bytes) = none →
      (DispatchMsg srv sess data bytes).1 = true ∧
      sends (DispatchMsg srv sess data bytes).2.2 = []) ∧
    (∀ service response, find srv.services_ sess.header.service = some service →
      service.CallMethod sess.header.method (data.take bytes) = some response →
      response.Serialize response.ByteSize = none →
      (DispatchMsg srv sess data bytes).1 = true ∧
      sends (DispatchMsg srv sess data bytes).2.2 = []) := by
  refine ⟨?_, ?_, ?_⟩
  · cases hf : find srv.services_ sess.header.service with
    | none => simp [DispatchMsg, hf]
    | some service =>
      simp only [DispatchMsg, hf]
      cases hc : service.CallMethod sess.header.method (data.take bytes) with
      | none => simp
      | some response =>
        simp only []
        split
        · split <;> simp
        · simp
  · intro service hf hc
    simp [DispatchMsg, hf, hc, sends]
  · intro service response hf hc hs
    simp only [DispatchMsg, hf, hc, hs]
    split <;> simp [sends]

/-- C9, on the demo server: the unknown method `X` and the unserializable answer of method `B`
both give `true` and no `Send`. -/
theorem C9_DispatchMsg_false_iff_unregistered_witness :
    ((DispatchMsg demoServer ⟨1, 7, ⟨42, eHeaderType.request, "S", "X", 1⟩⟩ [9] 1).1 = true ∧
      sends (DispatchMsg demoServer ⟨1, 7, ⟨42, eHeaderType.request, "S", "X", 1⟩⟩ [9] 1).2.2
        = []) ∧
    ((DispatchMsg demoServer ⟨1, 7, ⟨42, eHeaderType.request, "S", "B", 1⟩⟩ [9] 1).1 = true ∧
      sends (DispatchMsg demoServer ⟨1, 7, ⟨42, eHeaderType.request, "S", "B", 1⟩⟩ [9] 1).2.2
        = []) :=
  ⟨(C9_DispatchMsg_false_iff_unregistered demoServer
      ⟨1, 7, ⟨42, eHeaderType.request, "S", "X", 1⟩⟩ [9] 1).2.1 echoService rfl rfl,
    (C9_DispatchMsg_false_iff_unregistered demoServer
      ⟨1, 7, ⟨42, eHeaderType.request, "S", "B", 1⟩⟩ [9] 1).2.2 echoService brokenMessage
      rfl rfl rfl⟩

/-- C5. For a header of type `oneway_request`, `DispatchMsg` never calls `Send` and leaves the
header as it was (type and follow-bytes included), whatever the handler returns, and it
returns `true` whenever the service is registered. -/
theorem C5_oneway_never_sends (srv : ServerImpl) (sess : Session) (data : List Byte)
    (bytes : Nat) (hone : sess.header.type = eHeaderType.oneway_request) :
    sends (DispatchMsg srv sess data bytes).2.2 = [] ∧
    (DispatchMsg srv sess data bytes).2.1 = sess.header ∧
    (DispatchMsg srv sess data bytes).2.1.type = eHeaderType.oneway_request ∧
    (DispatchMsg srv sess data bytes).2.1.follow_bytes = sess.header.follow_bytes ∧
    (∀ service, find srv.services_ sess.header.service = some service →
      (DispatchMsg srv sess data bytes).1 = true) := by
  have key : sends (DispatchMsg srv sess data bytes).2.2 = [] ∧
      (DispatchMsg srv sess data bytes).2.1 = sess.header ∧
      (∀ service, find srv.services_ sess.header.service = some service →
        (DispatchMsg srv sess data bytes).1 = true) := by
    cases hf : find srv.services_ sess.header.service with
    | none => simp [DispatchMsg, hf, sends]
    | some service =>
      cases hc : service.CallMethod sess.header.method (data.take bytes) with
      | none => simp [DispatchMsg, hf, hc, sends]
      | some response => simp [DispatchMsg, hf, hc, hone, sends]
  refine ⟨key.1, key.2.1, ?_, ?_, key.2.2⟩
  · rw [key.2.1]; exact hone
  · rw [key.2.1]

/-- C5, on the demo server: a one-way call of the echoing method `M`, whose handler returns a
response object, sends nothing. -/
theorem C5_oneway_never_sends_witness :
    echoService.CallMethod "M" [9] = some (bytesMessage [9]) ∧
    sends (DispatchMsg demoServer ⟨1, 7, ⟨42, eHeaderType.oneway_request, "S", "M", 1⟩⟩
      [9] 1).2.2 = [] ∧
    (DispatchMsg demoServer ⟨1, 7, ⟨42, eHeaderType.oneway_request, "S", "M", 1⟩⟩
      [9] 1).1 = true :=
  ⟨rfl,
    (C5_oneway_never_sends demoServer ⟨1, 7, ⟨42, eHeaderType.oneway_request, "S", "M", 1⟩⟩
      [9] 1 rfl).1,
    (C5_oneway_never_sends demoServer ⟨1, 7, ⟨42, eHeaderType.oneway_request, "S", "M", 1⟩⟩
      [9] 1 rfl).2.2.2.2 echoService rfl⟩

/-- The parts of the codec contract that `Pb_Message` meets: with a null underlying object
`Serialize` is `false`, `ByteSize` is `0` and `Parse` is `0`; `Parse` is `0` when the
underlying parse fails; and `Parse` is `1`, whatever the length of the buffer, when the
underlying parse succeeds. -/
theorem Pb_Message_contract (own : Bool) (g : ProtoMessage) (buf : List Byte) (len : Nat) :
    Pb_Message.Serialize ⟨none, own⟩ len = none ∧
    Pb_Message.ByteSize ⟨none, own⟩ = 0 ∧
    Pb_Message.Parse ⟨none, own⟩ buf = 0 ∧
    (g.ParseFromArray buf = false → Pb_Message.Parse ⟨some g, own⟩ buf = 0) ∧
    (g.ParseFromArray buf = true → Pb_Message.Parse ⟨some g, own⟩ buf = 1) := by
  refine ⟨rfl, rfl, rfl, ?_, ?_⟩ <;> intro h <;> simp [Pb_Message.Parse, h]

/-- C10. On a buffer of four bytes that the underlying message parses successfully,
`Pb_Message::Parse` returns `1`, not the four bytes parsed; on the empty buffer, which the
message also parses successfully, it returns `1` as well, more than the buffer holds. -/
theorem C10_Parse_returns_bool :
    emptyProto.ParseFromArray [8, 1, 16, 2] = true ∧
    Pb_Message.Parse ⟨some emptyProto, true⟩ [8, 1, 16, 2] = 1 ∧
    Pb_Message.Parse ⟨some emptyProto, true⟩ [8, 1, 16, 2] ≠ [8, 1, 16, 2].length ∧
    emptyProto.ParseFromArray [] = true ∧
    Pb_Message.Parse ⟨some emptyProto, true⟩ [] = 1 := by
  decide

/-! ## The receive loop: one iteration -/

theorem dispatched_append (a b : List Event) :
    dispatched (a ++ b) = dispatched a ++ dispatched b := by
  induction a with
  | nil => rfl
  | cons e rest ih => cases e <;> simp [dispatched, ih]

theorem yields_append (a b : List Event) : yields (a ++ b) = yields a + yields b := by
  induction a with
  | nil => simp [yields]
  | cons e rest ih => cases e <;> simp [yields, ih]; omega

theorem DispatchMsg_events (srv : ServerImpl) (sess : Session) (data : List Byte)
    (bytes : Nat) :
    dispatched (DispatchMsg srv sess data bytes).2.2 = [] ∧
    yields (DispatchMsg srv sess data bytes).2.2 = 0 := by
  cases hf : find srv.services_ sess.header.service with
  | none => simp [DispatchMsg, hf, dispatched, yields]
  | some service =>
    cases hc : service.CallMethod sess.header.method (List.take bytes data) with
    | none => simp [DispatchMsg, hf, hc, dispatched, yields]
    | some response =>
      simp only [DispatchMsg, hf, hc]
      split
      · split <;> simp [dispatched, yields]
      · simp [dispatched, yields]

/-- What a completed iteration did. -/
theorem loopBody_next (srv : ServerImpl) (tp sess_id : Nat) (data : List Byte)
    (st st2 : LoopState) (evs : List Event)
    (h : loopBody srv tp sess_id data st = Step.next st2 evs) :
    st.consume < data.length ∧
    (srv.head_factory_.Parse (st.buf.take st.len)).1 ≠ 0 ∧
    ((srv.head_factory_.Parse (st.buf.take st.len)).1 +
      (srv.head_factory_.Parse (st.buf.take st.len)).2.follow_bytes) % SIZE_MOD ≤ st.len ∧
    (DispatchMsg srv ⟨sess_id, tp, (srv.head_factory_.Parse (st.buf.take st.len)).2⟩
      (st.buf.drop (srv.head_factory_.Parse (st.buf.take st.len)).1)
      (srv.head_factory_.Parse (st.buf.take st.len)).2.follow_bytes).1 = true ∧
    st2.consume = (st.consume + ((srv.head_factory_.Parse (st.buf.take st.len)).1 +
      (srv.head_factory_.Parse (st.buf.take st.len)).2.follow_bytes) % SIZE_MOD) % SIZE_MOD ∧
    st2.buf = data.drop st2.consume ∧
    st2.len = (data.length + SIZE_MOD - st2.consume) % SIZE_MOD ∧
    st2.yield_c = st.yield_c + 1 ∧
    evs = Event.dispatch (srv.head_factory_.Parse (st.buf.take st.len)).2
        ((st.buf.drop (srv.head_factory_.Parse (st.buf.take st.len)).1).take
          (srv.head_factory_.Parse (st.buf.take st.len)).2.follow_bytes) ::
      (DispatchMsg srv ⟨sess_id, tp, (srv.head_factory_.Parse (st.buf.take st.len)).2⟩
        (st.buf.drop (srv.head_factory_.Parse (st.buf.take st.len)).1)
        (srv.head_factory_.Parse (st.buf.take st.len)).2.follow_bytes).2.2 ++
      (if (st.yield_c + 1) % 256 = 0 then [Event.co_yield] else []) := by
  unfold loopBody at h
  simp only [] at h
  split at h
  · rename_i h1
    split at h
    · exact absurd h (by simp)
    · rename_i h2
      split at h
      · exact absurd h (by simp)
      · rename_i h3
        split at h
        · exact absurd h (by simp)
        · rename_i h4
          simp only [Step.next.injEq] at h
          obtain ⟨hst, hev⟩ := h
          subst hst
          refine ⟨h1, h2, Nat.le_of_not_lt h3, by simpa using h4, rfl, rfl, rfl, rfl, hev.symm⟩
  · exact absurd h (by simp)

/-- What an iteration that returned `-1` did. -/
theorem loopBody_fatal (srv : ServerImpl) (tp sess_id : Nat) (data : List Byte)
    (st : LoopState)
    (hlt : st.consume < data.length)
    (hhead : (srv.head_factory_.Parse (st.buf.take st.len)).1 ≠ 0)
    (hfit : ¬ ((srv.head_factory_.Parse (st.buf.take st.len)).1 +
      (srv.head_factory_.Parse (st.buf.take st.len)).2.follow_bytes) % SIZE_MOD > st.len)
    (hunk : find srv.services_ (srv.head_factory_.Parse (st.buf.take st.len)).2.service
      = none) :
    loopBody srv tp sess_id data st =
      Step.fatal [Event.dispatch (srv.head_factory_.Parse (st.buf.take st.len)).2
        ((st.buf.drop (srv.head_factory_.Parse (st.buf.take st.len)).1).take
          (srv.head_factory_.Parse (st.buf.take st.len)).2.follow_bytes)] := by
  unfold loopBody
  simp only [hlt, hhead, hfit, if_true, if_false]
  simp [DispatchMsg, hunk]

theorem iterate_whileLoop (srv : ServerImpl) (tp sess_id : Nat) (data : List Byte) :
    ∀ (k : Nat) (st st2 : LoopState) (evs : List Event),
      iterate srv tp sess_id data k st = some (st2, evs) →
      ∀ f, whileLoop srv tp sess_id data (k + f) st =
        (whileLoop srv tp sess_id data f st2).map (fun r => (r.1, evs ++ r.2)) := by
  intro k
  induction k with
  | zero =>
    intro st st2 evs h f
    simp only [iterate, Option.some.injEq, Prod.mk.injEq] at h
    obtain ⟨h1, h2⟩ := h
    subst h1; subst h2
    simp
  | succ k ih =>
    intro st st2 evs h f
    simp only [iterate] at h
    cases hb : loopBody srv tp sess_id data st with
    | brk => rw [hb] at h; exact absurd h (by simp)
    | fatal e => rw [hb] at h; exact absurd h (by simp)
    | next st1 e1 =>
      rw [hb] at h
      simp only [] at h
      cases hi : iterate srv tp sess_id data k st1 with
      | none => rw [hi] at h; exact absurd h (by simp)
      | some r =>
        obtain ⟨st3, e2⟩ := r
        rw [hi] at h
        simp only [Option.map_some', Option.some.injEq, Prod.mk.injEq] at h
        obtain ⟨h1, h2⟩ := h
        subst h1; subst h2
        have hk : k + 1 + f = (k + f) + 1 := by omega
        rw [hk]
        simp only [whileLoop, hb]
        rw [ih st1 st3 e2 hi f]
        cases whileLoop srv tp sess_id data f st3 with
        | none => rfl
        | some q => simp [List.append_assoc]

/-! ## Unknown service -/

/-- C3. When the loop, after `k` completed iterations, is at a complete frame whose service
name is not in the registry, `DispatchMsg` returns `false` without calling a handler or `Send`,
and `OnReceiveData` returns `(size_t)-1`; its events are those of the `k` earlier iterations
followed by the call of `DispatchMsg` for that frame and nothing more, so no later frame of the
buffer is dispatched. -/
theorem C3_unknown_service_fatal (srv : ServerImpl) (tp sess_id : Nat) (data : List Byte)
    (k : Nat) (st : LoopState) (evs : List Event)
    (hreach : iterate srv tp sess_id data k ⟨0, data, data.length, 0⟩ = some (st, evs))
    (hlt : st.consume < data.length)
    (hhead : (srv.head_factory_.Parse (st.buf.take st.len)).1 ≠ 0)
    (hfit : ¬ ((srv.head_factory_.Parse (st.buf.take st.len)).1 +
      (srv.head_factory_.Parse (st.buf.take st.len)).2.follow_bytes) % SIZE_MOD > st.len)
    (hunk : find srv.services_ (srv.head_factory_.Parse (st.buf.take st.len)).2.service
      = none) :
    DispatchMsg srv ⟨sess_id, tp, (srv.head_factory_.Parse (st.buf.take st.len)).2⟩
      (st.buf.drop (srv.head_factory_.Parse (st.buf.take st.len)).1)
      (srv.head_factory_.Parse (st.buf.take st.len)).2.follow_bytes
      = (false, (srv.head_factory_.Parse (st.buf.take st.len)).2, []) ∧
    ∀ fuel, k < fuel →
      OnReceiveData srv tp sess_id data fuel =
        some (FATAL, evs ++ [Event.dispatch (srv.head_factory_.Parse (st.buf.take st.len)).2
          ((st.buf.drop (srv.head_factory_.Parse (st.buf.take st.len)).1).take
            (srv.head_factory_.Parse (st.buf.take st.len)).2.follow_bytes)]) := by
  refine ⟨by simp [DispatchMsg, hunk], ?_⟩
  intro fuel hk
  obtain ⟨f, rfl⟩ : ∃ f, fuel = k + (f + 1) := ⟨fuel - k - 1, by omega⟩
  unfold OnReceiveData
  rw [iterate_whileLoop srv tp sess_id data k _ st evs hreach (f + 1)]
  simp [whileLoop, loopBody_fatal srv tp sess_id data st hlt hhead hfit hunk]

/-- C3, on the three demo frames: the frame for the unregistered `T` ends the read with the
sentinel, after the first frame and before the third. -/
theorem C3_unknown_service_fatal_witness :
    OnReceiveData demoServer 7 1 demoThreeFrames 2 =
      some (FATAL,
        [Event.dispatch ⟨42, eHeaderType.oneway_request, "S", "M", 1⟩ [9],
          Event.call "S" "M" [9]] ++
        [Event.dispatch ⟨43, eHeaderType.request, "T", "M", 0⟩ []]) :=
  (C3_unknown_service_fatal demoServer 7 1 demoThreeFrames 1
    ⟨13, demoThreeFrames.drop 13, 24, 1⟩
    [Event.dispatch ⟨42, eHeaderType.oneway_request, "S", "M", 1⟩ [9], Event.call "S" "M" [9]]
    (by decide) (by decide) (by decide) (by decide) rfl).2 2 (by decide)

/-! ## Fairness -/

theorem whileLoop_yields (srv : ServerImpl) (tp sess_id : Nat) (data : List Byte) :
    ∀ (fuel : Nat) (st : LoopState) (ret : Nat) (tr : List Event),
      whileLoop srv tp sess_id data fuel st = some (ret, tr) → ret ≠ FATAL →
      ∃ body, tr = body ++
          (if st.yield_c + (dispatched body).length ≤ 255 then [Event.co_yield] else []) ∧
        ∀ pre suf, body = pre ++ suf →
          (suf = [] ∨ ∃ h p s2, suf = Event.dispatch h p :: s2) →
          (st.yield_c + (dispatched pre).length) / 256 = st.yield_c / 256 + yields pre := by
  intro fuel
  induction fuel with
  | zero => intro st ret tr h; simp [whileLoop] at h
  | succ fuel ih =>
    intro st ret tr h hnf
    simp only [whileLoop] at h
    cases hb : loopBody srv tp sess_id data st with
    | brk =>
      rw [hb] at h
      simp only [Option.some.injEq, Prod.mk.injEq] at h
      refine ⟨[], ?_, ?_⟩
      · simp [dispatched, ← h.2]
      · intro pre suf hsplit _
        have hpre : pre = [] := (List.append_eq_nil.1 hsplit.symm).1
        subst hpre
        simp [dispatched, yields]
    | fatal e =>
      rw [hb] at h
      simp only [Option.some.injEq, Prod.mk.injEq] at h
      exact absurd h.1.symm hnf
    | next st1 e1 =>
      rw [hb] at h
      simp only [] at h
      cases hw : whileLoop srv tp sess_id data fuel st1 with
      | none => rw [hw] at h; simp at h
      | some r =>
        obtain ⟨r1, t1⟩ := r
        rw [hw] at h
        simp only [Option.map_some', Option.some.injEq, Prod.mk.injEq] at h
        obtain ⟨hr, ht⟩ := h
        subst hr
        obtain ⟨body1, hb1, hy1⟩ := ih st1 r1 t1 hw hnf
        obtain ⟨-, -, -, -, -, -, -, hyc, hev⟩ := loopBody_next srv tp sess_id data st st1 e1 hb
        have hde := DispatchMsg_events srv
          ⟨sess_id, tp, (srv.head_factory_.Parse (st.buf.take st.len)).2⟩
          (st.buf.drop (srv.head_factory_.Parse (st.buf.take st.len)).1)
          (srv.head_factory_.Parse (st.buf.take st.len)).2.follow_bytes
        have hD : (dispatched e1).length = 1 := by
          rw [hev]
          split <;> simp [dispatched, dispatched_append, hde.1]
        have hY : yields e1 = if (st.yield_c + 1) % 256 = 0 then 1 else 0 := by
          rw [hev]
          split <;> simp [yields, yields_append, hde.2]
        rw [hyc] at hy1
        refine ⟨e1 ++ body1, ?_, ?_⟩
        · rw [← ht, hb1, dispatched_append, List.length_append, hD, hyc, List.append_assoc]
          have : st.yield_c + 1 + (dispatched body1).length
              = st.yield_c + (1 + (dispatched body1).length) := by omega
          rw [this]
        · intro pre suf hsplit hsuf
          rcases List.append_eq_append_iff.1 hsplit with ⟨a, ha1, ha2⟩ | ⟨c, hc1, hc2⟩
          · have hrec := hy1 a suf ha2 hsuf
            rw [ha1, dispatched_append, List.length_append, hD, yields_append, hY]
            split <;> omega
          · cases c with
            | nil =>
              rw [List.append_nil] at hc1
              rw [← hc1, hD, hY]
              split <;> omega
            | cons x c2 =>
              have hx : ∃ h p, x = Event.dispatch h p := by
                rcases hsuf with hnil | ⟨h, p, s2, hs⟩
                · rw [hnil] at hc2; exact absurd hc2 (by simp)
                · rw [hs] at hc2
                  simp only [List.cons_append, List.cons.injEq] at hc2
                  exact ⟨h, p, hc2.1.symm⟩
              obtain ⟨h, p, rfl⟩ := hx
              have hD2 : (dispatched e1).length
                  = (dispatched pre).length + 1 + (dispatched c2).length := by
                rw [hc1, dispatched_append]
                simp [dispatched]
                omega
              cases pre with
              | nil => simp [dispatched, yields]
              | cons y pre2 =>
                rw [hev] at hc1
                simp only [List.cons_append, List.cons.injEq] at hc1
                have hy : (dispatched (y :: pre2)).length ≥ 1 := by
                  rw [← hc1.1]; simp [dispatched]
                omega

/-- C7. When `OnReceiveData` dispatches `N` frames and returns a value other than the fatal
sentinel, its events are those of the loop, among which exactly `N / 256` are yields, followed
by exactly one more yield if `N < 256` and by nothing otherwise. Inside the loop the yields
come once after each 256th frame: whenever a frame is about to be dispatched, and at the end of
the loop, the yields so far number the frames so far divided by 256. So the invocation yields
`N / 256 + (if N < 256 then 1 else 0)` times: at least `N / 256` times, at least once, and at
least 39 times for 10,000 frames. -/
theorem C7_yield_count (srv : ServerImpl) (tp sess_id : Nat) (data : List Byte)
    (fuel ret : Nat) (tr : List Event)
    (hrun : OnReceiveData srv tp sess_id data fuel = some (ret, tr))
    (hnf : ret ≠ FATAL) :
    ∃ body, tr = body ++ (if (dispatched tr).length < 256 then [Event.co_yield] else []) ∧
      (dispatched body).length = (dispatched tr).length ∧
      yields body = (dispatched tr).length / 256 ∧
      (∀ pre suf, body = pre ++ suf →
        (suf = [] ∨ ∃ h p s2, suf = Event.dispatch h p :: s2) →
        yields pre = (dispatched pre).length / 256) ∧
      yields tr = (dispatched tr).length / 256 +
        (if (dispatched tr).length < 256 then 1 else 0) ∧
      (dispatched tr).length / 256 ≤ yields tr ∧
      1 ≤ yields tr ∧
      ((dispatched tr).length = 10000 → 39 ≤ yields tr) := by
  obtain ⟨body, hb, hpos⟩ := whileLoop_yields srv tp sess_id data fuel _ ret tr hrun hnf
  simp only [Nat.zero_add, Nat.zero_div] at hb hpos
  have hy := hpos body [] (by simp) (Or.inl rfl)
  have hpos2 : ∀ pre suf, body = pre ++ suf →
      (suf = [] ∨ ∃ h p s2, suf = Event.dispatch h p :: s2) →
      yields pre = (dispatched pre).length / 256 :=
    fun pre suf h1 h2 => (hpos pre suf h1 h2).symm
  have hN : (dispatched tr).length = (dispatched body).length := by
    rw [hb, dispatched_append]
    split <;> simp [dispatched]
  have hT : yields tr = yields body + (if (dispatched body).length ≤ 255 then 1 else 0) := by
    rw [hb, yields_append]
    split <;> simp [yields]
  by_cases hle : (dispatched body).length ≤ 255
  · have hlt : (dispatched body).length < 256 := by omega
    simp only [hle, if_true] at hb hT
    refine ⟨body, ?_, hN.symm, ?_, hpos2, ?_, ?_, ?_, ?_⟩ <;> try rw [hN]
    all_goals try simp only [hlt, if_true]
    · exact hb
    · omega
    · omega
    · omega
    · omega
    · intro h10; omega
  · have hlt : ¬ (dispatched body).length < 256 := by omega
    simp only [hle, if_false] at hb hT
    refine ⟨body, ?_, hN.symm, ?_, hpos2, ?_, ?_, ?_, ?_⟩ <;> try rw [hN]
    all_goals try simp only [hlt, if_false]
    · exact hb
    · omega
    · omega
    · omega
    · omega
    · intro h10; omega

/-- C7, on one demo frame: one frame is dispatched and the invocation yields once, after the
loop. -/
theorem C7_yield_count_witness :
    ∃ body, [Event.dispatch ⟨42, eHeaderType.oneway_request, "S", "M", 1⟩ [9],
        Event.call "S" "M" [9], Event.co_yield] = body ++ [Event.co_yield] ∧
      yields body = 0 :=
  have h := C7_yield_count demoServer 7 1 (demoHeaderBytes 1 42 83 77 1 ++ [9]) 5 13
    [Event.dispatch ⟨42, eHeaderType.oneway_request, "S", "M", 1⟩ [9],
      Event.call "S" "M" [9], Event.co_yield] (by decide) (by decide)
  h.imp (fun _ hb => ⟨hb.1, hb.2.2.1⟩)

/-! ## The check of the declared follow-bytes against the window -/

/-- C2. The window is the twelve bytes of a header that declares `2 ^ 64 - 1` follow-bytes:
`Parse` returns `12`, the declared follow-bytes exceed the `12 - 12 = 0` bytes that remain,
and still the iteration does not stop: `head_len + follow_bytes` wraps to `11`, which is not
above `len = 12`, so `DispatchMsg` is called (with an empty payload range), the handler runs, a
reply is sent, and `11` is returned instead of `0`. -/
theorem C2_overrun_is_dispatched :
    (demoServer.head_factory_.Parse demoOverrun).1 = 12 ∧
    (demoServer.head_factory_.Parse demoOverrun).2.follow_bytes = 2 ^ 64 - 1 ∧
    (demoServer.head_factory_.Parse demoOverrun).2.follow_bytes
      > demoOverrun.length - (demoServer.head_factory_.Parse demoOverrun).1 ∧
    loopBody demoServer 7 1 demoOverrun ⟨0, demoOverrun, demoOverrun.length, 0⟩ ≠ Step.brk ∧
    OnReceiveData demoServer 7 1 demoOverrun 13 =
      some (11, [Event.dispatch ⟨42, eHeaderType.request, "S", "M", 2 ^ 64 - 1⟩ [],
        Event.call "S" "M" [],
        Event.send 7 1 [2, 42, 83, 77, 0, 0, 0, 0, 0, 0, 0, 0],
        Event.co_yield]) := by
  decide

/-- C8. On the twelve bytes of a header that declares `2 ^ 64 - 1` follow-bytes,
`OnReceiveData` dispatches one frame and returns `11`: not the header bytes plus the declared
follow-bytes of that frame, and less than the twelve header bytes alone, so the dispatched
frame does not lie between offset `0` and the value returned. -/
theorem C8_return_is_wrapped_sum :
    (OnReceiveData demoServer 7 1 demoOverrun 13).map (fun r => (r.1, dispatched r.2)) =
      some (11, [(⟨42, eHeaderType.request, "S", "M", 2 ^ 64 - 1⟩, [])]) ∧
    (demoServer.head_factory_.Parse demoOverrun).1 = 12 ∧
    (demoServer.head_factory_.Parse demoOverrun).2.follow_bytes = 2 ^ 64 - 1 ∧
    11 ≠ (demoServer.head_factory_.Parse demoOverrun).1 +
      (demoServer.head_factory_.Parse demoOverrun).2.follow_bytes ∧
    11 < (demoServer.head_factory_.Parse demoOverrun).1 := by
  decide

/-- C1. The thirteen bytes of a header declaring `2 ^ 64 - 1` follow-bytes and one more byte,
delivered at once and delivered as the header followed by the last byte: the same stream, but
the frame handed to `DispatchMsg` has the payload byte `9` in the first case and no payload in
the second, where it is dispatched before that byte arrived. -/
theorem C1_chunking_changes_dispatch :
    List.flatten [demoOverrun ++ [9]] = List.flatten [demoOverrun, [9]] ∧
    (deliverAll demoServer 7 1 ⟨[], false⟩ [demoOverrun ++ [9]]).map dispatched =
      some [(⟨42, eHeaderType.request, "S", "M", 2 ^ 64 - 1⟩, [9])] ∧
    (deliverAll demoServer 7 1 ⟨[], false⟩ [demoOverrun, [9]]).map dispatched =
      some [(⟨42, eHeaderType.request, "S", "M", 2 ^ 64 - 1⟩, [])] := by
  decide

/-! ## The receive loop against the frames of the buffer

The lemmas of this section hold for header implementations on which `head_len +
follow_bytes` never reaches `2 ^ 64` (`NoWrap`). -/

theorem DispatchMsg_fst (srv : ServerImpl) (sess : Session) (data : List Byte) (bytes : Nat) :
    (DispatchMsg srv sess data bytes).1 = (find srv.services_ sess.header.service).isSome := by
  cases hf : find srv.services_ sess.header.service with
  | none => simp [DispatchMsg, hf]
  | some service =>
    cases hc : service.CallMethod sess.header.method (data.take bytes) with
    | none => simp [DispatchMsg, hf, hc]
    | some response =>
      simp only [DispatchMsg, hf, hc]
      split
      · split <;> simp
      · simp

theorem LoopInv_window (data : List Byte) (st : LoopState) (h : LoopInv data st) :
    st.buf.take st.len = data.drop st.consume := by
  obtain ⟨-, hb, hl⟩ := h
  rw [hb, hl]
  apply List.take_of_length_le
  simp

theorem loopBody_brk_of (srv : ServerImpl) (tp sess_id : Nat) (data : List Byte)
    (st : LoopState)
    (h : ¬ st.consume < data.length ∨
      (srv.head_factory_.Parse (st.buf.take st.len)).1 = 0 ∨
      ((srv.head_factory_.Parse (st.buf.take st.len)).1 +
        (srv.head_factory_.Parse (st.buf.take st.len)).2.follow_bytes) % SIZE_MOD > st.len) :
    loopBody srv tp sess_id data st = Step.brk := by
  unfold loopBody
  simp only []
  split
  · split
    · rfl
    · split
      · rfl
      · rename_i h1 h2 h3
        rcases h with h | h | h
        · exact absurd h1 h
        · exact absurd h h2
        · exact absurd h h3
  · rfl

theorem loopBody_next_inv (srv : ServerImpl) (tp sess_id : Nat) (data : List Byte)
    (hW : data.length < SIZE_MOD) (hNW : NoWrap srv)
    (st st2 : LoopState) (evs : List Event) (hinv : LoopInv data st)
    (h : loopBody srv tp sess_id data st = Step.next st2 evs) :
    LoopInv data st2 ∧
    (srv.head_factory_.Parse (data.drop st.consume)).1 ≠ 0 ∧
    (srv.head_factory_.Parse (data.drop st.consume)).1 +
      (srv.head_factory_.Parse (data.drop st.consume)).2.follow_bytes ≤ st.len ∧
    st2.consume = st.consume + ((srv.head_factory_.Parse (data.drop st.consume)).1 +
      (srv.head_factory_.Parse (data.drop st.consume)).2.follow_bytes) := by
  obtain ⟨hlt, hh, hfit, -, hc, hb, hl, -, -⟩ := loopBody_next srv tp sess_id data st st2 evs h
  rw [LoopInv_window data st hinv] at hh hfit hc
  have hnw := hNW (data.drop st.consume)
  rw [Nat.mod_eq_of_lt hnw] at hfit hc
  obtain ⟨h1, h2, h3⟩ := hinv
  have hsum : st.consume + ((srv.head_factory_.Parse (data.drop st.consume)).1 +
      (srv.head_factory_.Parse (data.drop st.consume)).2.follow_bytes) ≤ data.length := by
    omega
  have hc2 : st2.consume = st.consume + ((srv.head_factory_.Parse (data.drop st.consume)).1 +
      (srv.head_factory_.Parse (data.drop st.consume)).2.follow_bytes) := by
    rw [hc]; exact Nat.mod_eq_of_lt (by omega)
  refine ⟨⟨by omega, hb, ?_⟩, hh, hfit, hc2⟩
  rw [hl]
  have : data.length + SIZE_MOD - st2.consume = (data.length - st2.consume) + SIZE_MOD := by
    omega
  rw [this, Nat.add_mod_right]
  exact Nat.mod_eq_of_lt (by omega)

theorem loopBody_next_of (srv : ServerImpl) (tp sess_id : Nat) (data : List Byte)
    (st : LoopState)
    (hlt : st.consume < data.length)
    (hhead : (srv.head_factory_.Parse (st.buf.take st.len)).1 ≠ 0)
    (hfit : ¬ ((srv.head_factory_.Parse (st.buf.take st.len)).1 +
      (srv.head_factory_.Parse (st.buf.take st.len)).2.follow_bytes) % SIZE_MOD > st.len)
    (hok : (DispatchMsg srv ⟨sess_id, tp, (srv.head_factory_.Parse (st.buf.take st.len)).2⟩
      (st.buf.drop (srv.head_factory_.Parse (st.buf.take st.len)).1)
      (srv.head_factory_.Parse (st.buf.take st.len)).2.follow_bytes).1 = true) :
    ∃ st2 evs, loopBody srv tp sess_id data st = Step.next st2 evs ∧
      dispatched evs = [((srv.head_factory_.Parse (st.buf.take st.len)).2,
        (st.buf.drop (srv.head_factory_.Parse (st.buf.take st.len)).1).take
          (srv.head_factory_.Parse (st.buf.take st.len)).2.follow_bytes)] := by
  have hde := DispatchMsg_events srv
    ⟨sess_id, tp, (srv.head_factory_.Parse (st.buf.take st.len)).2⟩
    (st.buf.drop (srv.head_factory_.Parse (st.buf.take st.len)).1)
    (srv.head_factory_.Parse (st.buf.take st.len)).2.follow_bytes
  unfold loopBody
  simp only [hlt, hhead, hfit, hok, if_true, if_false]
  refine ⟨_, _, rfl, ?_⟩
  split <;> simp [dispatched, dispatched_append, hde.1]

theorem whileLoop_brk (srv : ServerImpl) (tp sess_id : Nat) (data : List Byte)
    (st : LoopState) (n : Nat) (h : loopBody srv tp sess_id data st = Step.brk) :
    whileLoop srv tp sess_id data (n + 1) st =
      some (st.consume, if st.yield_c ≤ 255 then [Event.co_yield] else []) := by
  simp [whileLoop, h]

theorem dispatched_post (c : Prop) [Decidable c] :
    dispatched (if c then [Event.co_yield] else []) = [] := by
  split <;> rfl

theorem readFrames_stop (srv : ServerImpl) (n : Nat) (w : List Byte)
    (h : (srv.head_factory_.Parse w).1 = 0 ∨
      w.length < (srv.head_factory_.Parse w).1 + (srv.head_factory_.Parse w).2.follow_bytes) :
    readFrames srv (n + 1) w = ⟨[], 0, false⟩ := by
  simp only [readFrames, if_pos h]

theorem readFrames_fatal (srv : ServerImpl) (n : Nat) (w : List Byte)
    (h : ¬ ((srv.head_factory_.Parse w).1 = 0 ∨
      w.length < (srv.head_factory_.Parse w).1 + (srv.head_factory_.Parse w).2.follow_bytes))
    (hf : find srv.services_ (srv.head_factory_.Parse w).2.service = none) :
    readFrames srv (n + 1) w =
      ⟨[((srv.head_factory_.Parse w).2,
        (w.drop (srv.head_factory_.Parse w).1).take
          (srv.head_factory_.Parse w).2.follow_bytes)], 0, true⟩ := by
  simp only [readFrames, if_neg h, hf, Option.isNone_none, if_true]

theorem readFrames_next (srv : ServerImpl) (n : Nat) (w : List Byte) (service : IService)
    (h : ¬ ((srv.head_factory_.Parse w).1 = 0 ∨
      w.length < (srv.head_factory_.Parse w).1 + (srv.head_factory_.Parse w).2.follow_bytes))
    (hf : find srv.services_ (srv.head_factory_.Parse w).2.service = some service) :
    readFrames srv (n + 1) w =
      ⟨((srv.head_factory_.Parse w).2,
          (w.drop (srv.head_factory_.Parse w).1).take
            (srv.head_factory_.Parse w).2.follow_bytes) ::
          (readFrames srv n (w.drop ((srv.head_factory_.Parse w).1 +
            (srv.head_factory_.Parse w).2.follow_bytes))).frames,
        (srv.head_factory_.Parse w).1 + (srv.head_factory_.Parse w).2.follow_bytes +
          (readFrames srv n (w.drop ((srv.head_factory_.Parse w).1 +
            (srv.head_factory_.Parse w).2.follow_bytes))).consumed,
        (readFrames srv n (w.drop ((srv.head_factory_.Parse w).1 +
            (srv.head_factory_.Parse w).2.follow_bytes))).fatal⟩ := by
  simp only [readFrames, if_neg h, hf, Option.isNone_some, Bool.false_eq_true, if_false]

/-- Without wrap-around, an invocation of the loop with one unit of fuel per remaining byte and
one more returns, and it dispatches exactly the frames laid out back to back in the window,
returning the bytes they occupy, or the sentinel after a frame for an unregistered service. -/
theorem whileLoop_readFrames (srv : ServerImpl) (tp sess_id : Nat) (data : List Byte)
    (hW : data.length < SIZE_MOD) (hNW : NoWrap srv) :
    ∀ (fuel : Nat) (st : LoopState), LoopInv data st → st.len < fuel →
      ∃ tr, whileLoop srv tp sess_id data fuel st =
          some (returnOf st.consume (readFrames srv fuel (data.drop st.consume)), tr) ∧
        dispatched tr = (readFrames srv fuel (data.drop st.consume)).frames := by
  intro fuel
  induction fuel with
  | zero => intro st _ h; exact absurd h (by omega)
  | succ n ih =>
    intro st hinv hfuel
    have hwin := LoopInv_window data st hinv
    have hlen : (data.drop st.consume).length = st.len := by
      rw [List.length_drop]; exact hinv.2.2.symm
    have hnw := hNW (data.drop st.consume)
    by_cases hlt : st.consume < data.length
    · by_cases hhead : (srv.head_factory_.Parse (data.drop st.consume)).1 = 0
      · refine ⟨if st.yield_c ≤ 255 then [Event.co_yield] else [], ?_, ?_⟩
        · rw [whileLoop_brk _ _ _ _ _ _ (loopBody_brk_of _ _ _ _ _ (Or.inr (Or.inl
            (by rw [hwin]; exact hhead)))), readFrames_stop _ _ _ (Or.inl hhead)]
          simp [returnOf]
        · rw [dispatched_post, readFrames_stop _ _ _ (Or.inl hhead)]
      · by_cases hfit : st.len < (srv.head_factory_.Parse (data.drop st.consume)).1 +
            (srv.head_factory_.Parse (data.drop st.consume)).2.follow_bytes
        · have hstop : (srv.head_factory_.Parse (data.drop st.consume)).1 = 0 ∨
              (data.drop st.consume).length <
                (srv.head_factory_.Parse (data.drop st.consume)).1 +
                (srv.head_factory_.Parse (data.drop st.consume)).2.follow_bytes := by
            rw [hlen]; exact Or.inr hfit
          refine ⟨if st.yield_c ≤ 255 then [Event.co_yield] else [], ?_, ?_⟩
          · rw [whileLoop_brk _ _ _ _ _ _ (loopBody_brk_of _ _ _ _ _ (Or.inr (Or.inr
              (by rw [hwin, Nat.mod_eq_of_lt hnw]; exact hfit)))), readFrames_stop _ _ _ hstop]
            simp [returnOf]
          · rw [dispatched_post, readFrames_stop _ _ _ hstop]
        · have hcond : ¬ ((srv.head_factory_.Parse (data.drop st.consume)).1 = 0 ∨
              (data.drop st.consume).length <
                (srv.head_factory_.Parse (data.drop st.consume)).1 +
                (srv.head_factory_.Parse (data.drop st.consume)).2.follow_bytes) := by
            rw [hlen]; exact fun h => h.elim hhead hfit
          have hfit2 : ¬ ((srv.head_factory_.Parse (st.buf.take st.len)).1 +
              (srv.head_factory_.Parse (st.buf.take st.len)).2.follow_bytes) % SIZE_MOD
                > st.len := by
            rw [hwin, Nat.mod_eq_of_lt hnw]; exact hfit
          have hbuf : st.buf = data.drop st.consume := hinv.2.1
          cases hfind : find srv.services_
              (srv.head_factory_.Parse (data.drop st.consume)).2.service with
          | none =>
            have hb := loopBody_fatal srv tp sess_id data st hlt
              (by rw [hwin]; exact hhead) hfit2 (by rw [hwin]; exact hfind)
            rw [hwin, hbuf] at hb
            refine ⟨[Event.dispatch (srv.head_factory_.Parse (data.drop st.consume)).2
              (((data.drop st.consume).drop
                (srv.head_factory_.Parse (data.drop st.consume)).1).take
                (srv.head_factory_.Parse (data.drop st.consume)).2.follow_bytes)], ?_, ?_⟩
            · rw [readFrames_fatal _ _ _ hcond hfind]
              simp only [whileLoop, hb]
              simp [returnOf]
            · rw [readFrames_fatal _ _ _ hcond hfind]
              simp [dispatched]
          | some service =>
            have hok : (DispatchMsg srv
                ⟨sess_id, tp, (srv.head_factory_.Parse (st.buf.take st.len)).2⟩
                (st.buf.drop (srv.head_factory_.Parse (st.buf.take st.len)).1)
                (srv.head_factory_.Parse (st.buf.take st.len)).2.follow_bytes).1 = true := by
              rw [DispatchMsg_fst, hwin]
              simp [hfind]
            obtain ⟨st2, evs, hb, hdis⟩ := loopBody_next_of srv tp sess_id data st hlt
              (by rw [hwin]; exact hhead) hfit2 hok
            rw [hwin, hbuf] at hdis
            obtain ⟨hinv2, -, hle, hc2⟩ :=
              loopBody_next_inv srv tp sess_id data hW hNW st st2 evs hinv hb
            have hlen2 : st2.len < n := by
              have h3 := hinv2.2.2
              have h4 := hinv.2.2
              have h5 := hinv.1
              have h6 := hinv2.1
              omega
            obtain ⟨tr2, hw2, hd2⟩ := ih st2 hinv2 hlen2
            have hdrop : (data.drop st.consume).drop
                ((srv.head_factory_.Parse (data.drop st.consume)).1 +
                  (srv.head_factory_.Parse (data.drop st.consume)).2.follow_bytes)
                = data.drop st2.consume := by
              rw [List.drop_drop, hc2]
            refine ⟨evs ++ tr2, ?_, ?_⟩
            · rw [readFrames_next _ _ _ service hcond hfind, hdrop]
              simp only [whileLoop, hb, hw2, Option.map_some', returnOf]
              congr 2
              split
              · rfl
              · omega
            · rw [readFrames_next _ _ _ service hcond hfind, hdrop, dispatched_append, hdis,
                hd2]
              rfl
    · have hb := loopBody_brk_of srv tp sess_id data st (Or.inl hlt)
      have hz : (data.drop st.consume).length = 0 := by
        rw [List.length_drop]; omega
      have hcond : (srv.head_factory_.Parse (data.drop st.consume)).1 = 0 ∨
          (data.drop st.consume).length <
            (srv.head_factory_.Parse (data.drop st.consume)).1 +
            (srv.head_factory_.Parse (data.drop st.consume)).2.follow_bytes := by
        rw [hz]; omega
      refine ⟨if st.yield_c ≤ 255 then [Event.co_yield] else [], ?_, ?_⟩
      · rw [whileLoop_brk _ _ _ _ _ _ hb, readFrames_stop _ _ _ hcond]
        simp [returnOf]
      · rw [dispatched_post, readFrames_stop _ _ _ hcond]

/-! ## Frames of a stream and of its pieces -/

theorem readFrames_consumed_le (srv : ServerImpl) :
    ∀ (n : Nat) (w : List Byte), (readFrames srv n w).consumed ≤ w.length := by
  intro n
  induction n with
  | zero => intro w; simp [readFrames]
  | succ n ih =>
    intro w
    by_cases hc : (srv.head_factory_.Parse w).1 = 0 ∨
        w.length < (srv.head_factory_.Parse w).1 + (srv.head_factory_.Parse w).2.follow_bytes
    · rw [readFrames_stop _ _ _ hc]; exact Nat.zero_le _
    · cases hf : find srv.services_ (srv.head_factory_.Parse w).2.service with
      | none => rw [readFrames_fatal _ _ _ hc hf]; exact Nat.zero_le _
      | some service =>
        rw [readFrames_next _ _ _ service hc hf]
        have h1 := ih (w.drop ((srv.head_factory_.Parse w).1 +
          (srv.head_factory_.Parse w).2.follow_bytes))
        rw [List.length_drop] at h1
        have h2 : (srv.head_factory_.Parse w).1 +
            (srv.head_factory_.Parse w).2.follow_bytes ≤ w.length := by
          have := not_or.1 hc
          omega
        simp only []
        omega

theorem readFrames_fuel (srv : ServerImpl) :
    ∀ (n m : Nat) (w : List Byte), w.length < n → w.length < m →
      readFrames srv n w = readFrames srv m w := by
  intro n
  induction n with
  | zero => intro m w h; exact absurd h (by omega)
  | succ n ih =>
    intro m w hn hm
    obtain ⟨j, rfl⟩ : ∃ j, m = j + 1 := ⟨m - 1, by omega⟩
    by_cases hc : (srv.head_factory_.Parse w).1 = 0 ∨
        w.length < (srv.head_factory_.Parse w).1 + (srv.head_factory_.Parse w).2.follow_bytes
    · rw [readFrames_stop _ _ _ hc, readFrames_stop _ _ _ hc]
    · cases hf : find srv.services_ (srv.head_factory_.Parse w).2.service with
      | none => rw [readFrames_fatal _ _ _ hc hf, readFrames_fatal _ _ _ hc hf]
      | some service =>
        have h2 := not_or.1 hc
        have hl : (w.drop ((srv.head_factory_.Parse w).1 +
            (srv.head_factory_.Parse w).2.follow_bytes)).length < w.length := by
          rw [List.length_drop]; omega
        rw [readFrames_next _ _ _ service hc hf, readFrames_next _ _ _ service hc hf,
          ih j _ (by omega) (by omega)]

theorem readAll_eq (srv : ServerImpl) (n : Nat) (w : List Byte) (h : w.length < n) :
    readFrames srv n w = readAll srv w :=
  readFrames_fuel srv n (w.length + 1) w h (by omega)

theorem andThen_nil (r2 : ReadResult) : ReadResult.andThen ⟨[], 0, false⟩ r2 = r2 := by
  simp [ReadResult.andThen]

/-- Extending a byte sequence: with a stable `Parse`, the frames of `b ++ e` are the frames of
`b` followed by the frames of what `b` left over extended by `e`. -/
theorem readAll_append (srv : ServerImpl) (hS : ParseStable srv) :
    ∀ (N : Nat) (b e : List Byte), b.length ≤ N →
      readAll srv (b ++ e) =
        (readAll srv b).andThen (readAll srv (b.drop (readAll srv b).consumed ++ e)) := by
  intro N
  induction N with
  | zero =>
    intro b e hb
    have : b = [] := List.eq_nil_of_length_eq_zero (by omega)
    subst this
    have h0 : readAll srv [] = ⟨[], 0, false⟩ := by
      unfold readAll
      apply readFrames_stop
      simp only [List.length_nil]
      omega
    rw [h0, andThen_nil]
    rfl
  | succ N ih =>
    intro b e hb
    by_cases hc : (srv.head_factory_.Parse b).1 = 0 ∨
        b.length < (srv.head_factory_.Parse b).1 + (srv.head_factory_.Parse b).2.follow_bytes
    · have h0 : readAll srv b = ⟨[], 0, false⟩ := readFrames_stop _ _ _ hc
      rw [h0, andThen_nil]
      rfl
    · have h2 := not_or.1 hc
      have hP : srv.head_factory_.Parse (b ++ e) = srv.head_factory_.Parse b := hS b e h2.1
      have hce : ¬ ((srv.head_factory_.Parse (b ++ e)).1 = 0 ∨ (b ++ e).length <
          (srv.head_factory_.Parse (b ++ e)).1 +
            (srv.head_factory_.Parse (b ++ e)).2.follow_bytes) := by
        rw [hP, List.length_append]
        omega
      have hpay : ((b ++ e).drop (srv.head_factory_.Parse b).1).take
          (srv.head_factory_.Parse b).2.follow_bytes =
          (b.drop (srv.head_factory_.Parse b).1).take
            (srv.head_factory_.Parse b).2.follow_bytes := by
        rw [List.drop_append_of_le_length (by omega)]
        apply List.take_append_of_le_length
        rw [List.length_drop]
        omega
      cases hf : find srv.services_ (srv.head_factory_.Parse b).2.service with
      | none =>
        have hb1 : readAll srv b = _ := readFrames_fatal srv _ b hc hf
        have hb2 : readAll srv (b ++ e) = _ :=
          readFrames_fatal srv _ (b ++ e) hce (by rw [hP]; exact hf)
        rw [hb2, hb1, hP, hpay]
        simp [ReadResult.andThen]
      | some service =>
        have hb1 : readAll srv b = _ := readFrames_next srv _ b service hc hf
        have hb2 : readAll srv (b ++ e) = _ :=
          readFrames_next srv _ (b ++ e) service hce (by rw [hP]; exact hf)
        have hl : (b.drop ((srv.head_factory_.Parse b).1 +
            (srv.head_factory_.Parse b).2.follow_bytes)).length < b.length := by
          rw [List.length_drop]; omega
        have hdrop : (b ++ e).drop ((srv.head_factory_.Parse b).1 +
            (srv.head_factory_.Parse b).2.follow_bytes) =
            b.drop ((srv.head_factory_.Parse b).1 +
              (srv.head_factory_.Parse b).2.follow_bytes) ++ e :=
          List.drop_append_of_le_length (by omega)
        have hrec := ih (b.drop ((srv.head_factory_.Parse b).1 +
            (srv.head_factory_.Parse b).2.follow_bytes)) e (by omega)
        rw [readAll_eq srv _ _ (by omega)] at hb1
        rw [hP, hpay, hdrop, readAll_eq srv _ _
          (by simp only [List.length_append, List.length_drop]; omega), hrec] at hb2
        rw [hb2, hb1]
        simp only [ReadResult.andThen, List.drop_drop]
        split
        · rfl
        · simp [Nat.add_assoc]

/-! ## One invocation, and successive deliveries -/

/-- Without wrap-around, `OnReceiveData` returns, with any fuel above the number of bytes; it
dispatches exactly the frames laid out back to back from offset `0` and returns the number of
bytes they occupy, which is at most the number of bytes handed in, or the sentinel after a
frame for an unregistered service. -/
theorem OnReceiveData_readAll (srv : ServerImpl) (tp sess_id : Nat) (data : List Byte)
    (hW : data.length < SIZE_MOD) (hNW : NoWrap srv) (fuel : Nat) (hfuel : data.length < fuel) :
    (∃ tr, OnReceiveData srv tp sess_id data fuel =
        some (returnOf 0 (readAll srv data), tr) ∧
      dispatched tr = (readAll srv data).frames) ∧
    (readAll srv data).consumed ≤ data.length := by
  refine ⟨?_, readFrames_consumed_le srv _ data⟩
  have hinv : LoopInv data ⟨0, data, data.length, 0⟩ := ⟨Nat.zero_le _, rfl, rfl⟩
  obtain ⟨tr, h1, h2⟩ :=
    whileLoop_readFrames srv tp sess_id data hW hNW fuel ⟨0, data, data.length, 0⟩ hinv hfuel
  simp only [List.drop_zero] at h1 h2
  rw [readAll_eq srv fuel data hfuel] at h1 h2
  exact ⟨tr, h1, h2⟩

theorem deliver_readAll (srv : ServerImpl) (tp sess_id : Nat) (hNW : NoWrap srv)
    (p c : List Byte) (hlen : (p ++ c).length < FATAL) :
    ∃ tr, deliver srv tp sess_id ⟨p, false⟩ c =
        some (if (readAll srv (p ++ c)).fatal then ⟨[], true⟩
          else ⟨(p ++ c).drop (readAll srv (p ++ c)).consumed, false⟩, tr) ∧
      dispatched tr = (readAll srv (p ++ c)).frames := by
  have hF : FATAL + 1 = SIZE_MOD := by decide
  obtain ⟨⟨tr, h1, h2⟩, h3⟩ := OnReceiveData_readAll srv tp sess_id (p ++ c)
    (by omega) hNW ((p ++ c).length + 1) (by omega)
  refine ⟨tr, ?_, h2⟩
  simp only [deliver, Bool.false_eq_true, if_false, h1, returnOf]
  cases hfat : (readAll srv (p ++ c)).fatal with
  | true => simp
  | false =>
    have hne : ¬ ((readAll srv (p ++ c)).consumed = FATAL) := by omega
    simp [hne]

theorem deliverAll_closed (srv : ServerImpl) (tp sess_id : Nat) :
    ∀ (cs : List (List Byte)) (p : List Byte),
      deliverAll srv tp sess_id ⟨p, true⟩ cs = some [] := by
  intro cs
  induction cs with
  | nil => intro p; rfl
  | cons c rest ih =>
    intro p
    simp [deliverAll, deliver, ih]

/-- Successive deliveries dispatch the frames of the whole stream: with a stable `Parse` and
without wrap-around, whatever the pieces, every invocation returns and the frames handed to
`DispatchMsg` over all invocations are the frames laid out back to back in the concatenation
of the pieces, up to the first one for an unregistered service. -/
theorem deliverAll_readAll (srv : ServerImpl) (tp sess_id : Nat) (hS : ParseStable srv)
    (hNW : NoWrap srv) :
    ∀ (cs : List (List Byte)) (p : List Byte), readAll srv p = ⟨[], 0, false⟩ →
      (p ++ cs.flatten).length < FATAL →
      ∃ tr, deliverAll srv tp sess_id ⟨p, false⟩ cs = some tr ∧
        dispatched tr = (readAll srv (p ++ cs.flatten)).frames := by
  intro cs
  induction cs with
  | nil =>
    intro p hp _
    refine ⟨[], rfl, ?_⟩
    simp [hp, dispatched]
  | cons c rest ih =>
    intro p hp hlen
    have hassoc : p ++ (c :: rest).flatten = (p ++ c) ++ rest.flatten := by
      simp [List.flatten]
    rw [hassoc] at hlen ⊢
    have hlen1 : (p ++ c).length < FATAL := by
      rw [List.length_append] at hlen; omega
    obtain ⟨tr1, hd, hdis⟩ := deliver_readAll srv tp sess_id hNW p c hlen1
    have happ := readAll_append srv hS (p ++ c).length (p ++ c) rest.flatten (Nat.le_refl _)
    have hstuck := readAll_append srv hS (p ++ c).length (p ++ c) [] (Nat.le_refl _)
    simp only [List.append_nil] at hstuck
    cases hfat : (readAll srv (p ++ c)).fatal with
    | true =>
      rw [hfat] at hd
      refine ⟨tr1, ?_, ?_⟩
      · simp [deliverAll, hd, deliverAll_closed]
      · rw [happ, hdis]
        simp [ReadResult.andThen, hfat]
    | false =>
      rw [hfat] at hd
      simp only [Bool.false_eq_true, if_false] at hd
      have hleft : readAll srv ((p ++ c).drop (readAll srv (p ++ c)).consumed)
          = ⟨[], 0, false⟩ := by
        generalize readAll srv ((p ++ c).drop (readAll srv (p ++ c)).consumed) = r2 at hstuck
        obtain ⟨f2, c2, t2⟩ := r2
        simp only [ReadResult.andThen, hfat, Bool.false_eq_true, if_false] at hstuck
        have h1 := congrArg ReadResult.frames hstuck
        have h2 := congrArg ReadResult.consumed hstuck
        have h3 := congrArg ReadResult.fatal hstuck
        simp only [] at h1 h2 h3
        have hf2 : f2 = [] := by
          have := congrArg List.length h1
          rw [List.length_append] at this
          exact List.eq_nil_of_length_eq_zero (by omega)
        have hc2 : c2 = 0 := by omega
        rw [hf2, hc2, ← h3, hfat]
      have hlen2 : ((p ++ c).drop (readAll srv (p ++ c)).consumed ++ rest.flatten).length
          < FATAL := by
        rw [List.length_append, List.length_drop]
        rw [List.length_append] at hlen
        omega
      obtain ⟨tr2, hd2, hdis2⟩ := ih _ hleft hlen2
      refine ⟨tr1 ++ tr2, ?_, ?_⟩
      · simp [deliverAll, hd, hd2]
      · rw [happ, dispatched_append, hdis, hdis2]
        simp [ReadResult.andThen, hfat]

/-- Chunking independence without wrap-around: with a stable `Parse`, a fixed registry and a
header implementation on which `head_len + follow_bytes` never reaches `2 ^ 64`, any two ways
of cutting a byte stream into deliveries make every invocation return and hand the same frames
to `DispatchMsg` in the same order. -/
theorem chunking_independent_of_NoWrap (srv : ServerImpl) (tp sess_id : Nat)
    (hS : ParseStable srv) (hNW : NoWrap srv) (cs1 cs2 : List (List Byte))
    (heq : cs1.flatten = cs2.flatten) (hlen : cs1.flatten.length < FATAL) :
    ∃ tr1 tr2, deliverAll srv tp sess_id ⟨[], false⟩ cs1 = some tr1 ∧
      deliverAll srv tp sess_id ⟨[], false⟩ cs2 = some tr2 ∧
      dispatched tr1 = dispatched tr2 ∧
      dispatched tr1 = (readAll srv cs1.flatten).frames := by
  have h0 : readAll srv [] = ⟨[], 0, false⟩ := by
    unfold readAll
    apply readFrames_stop
    simp only [List.length_nil]
    omega
  obtain ⟨tr1, h1, d1⟩ := deliverAll_readAll srv tp sess_id hS hNW cs1 [] h0
    (by simpa using hlen)
  obtain ⟨tr2, h2, d2⟩ := deliverAll_readAll srv tp sess_id hS hNW cs2 [] h0
    (by rw [← heq]; simpa using hlen)
  refine ⟨tr1, tr2, h1, h2, ?_, by simpa using d1⟩
  rw [d1, d2, heq]

/-! ## Incomplete frames, without and with wrap-around -/

/-- When `head_len + follow_bytes` does not wrap, an iteration that finds an incomplete header
(`Parse` returns `0`) or declared follow-bytes beyond the window does not call `DispatchMsg`:
the loop stops and the bytes consumed so far are returned. -/
theorem incomplete_frame_not_dispatched (srv : ServerImpl) (tp sess_id : Nat)
    (data : List Byte) (st : LoopState)
    (hnw : (srv.head_factory_.Parse (st.buf.take st.len)).1 +
      (srv.head_factory_.Parse (st.buf.take st.len)).2.follow_bytes < SIZE_MOD)
    (h : (srv.head_factory_.Parse (st.buf.take st.len)).1 = 0 ∨
      (0 < (srv.head_factory_.Parse (st.buf.take st.len)).1 ∧
        (srv.head_factory_.Parse (st.buf.take st.len)).2.follow_bytes >
          st.len - (srv.head_factory_.Parse (st.buf.take st.len)).1)) :
    loopBody srv tp sess_id data st = Step.brk ∧
    ∀ n, whileLoop srv tp sess_id data (n + 1) st =
      some (st.consume, if st.yield_c ≤ 255 then [Event.co_yield] else []) := by
  have hb : loopBody srv tp sess_id data st = Step.brk := by
    apply loopBody_brk_of
    rcases h with h | h
    · exact Or.inr (Or.inl h)
    · refine Or.inr (Or.inr ?_)
      rw [Nat.mod_eq_of_lt hnw]
      omega
  exact ⟨hb, fun n => whileLoop_brk srv tp sess_id data st n hb⟩

/-- Frames cut in two, without wrap-around: with a stable `Parse`, delivering a first part of a
single frame for a registered service dispatches nothing and returns `0`, and delivering the
rest afterwards dispatches the frame exactly once. -/
theorem split_frame_dispatched_once (srv : ServerImpl) (tp sess_id : Nat)
    (hS : ParseStable srv) (hNW : NoWrap srv) (p e : List Byte) (service : IService)
    (he : e ≠ [])
    (hh : (srv.head_factory_.Parse (p ++ e)).1 ≠ 0)
    (hfull : (srv.head_factory_.Parse (p ++ e)).1 +
      (srv.head_factory_.Parse (p ++ e)).2.follow_bytes = (p ++ e).length)
    (hreg : find srv.services_ (srv.head_factory_.Parse (p ++ e)).2.service = some service)
    (hlen : (p ++ e).length < FATAL) :
    (∃ tr, OnReceiveData srv tp sess_id p (p.length + 1) = some (0, tr) ∧
      dispatched tr = []) ∧
    (∃ tr, deliverAll srv tp sess_id ⟨[], false⟩ [p, e] = some tr ∧
      dispatched tr = [((srv.head_factory_.Parse (p ++ e)).2,
        (p ++ e).drop (srv.head_factory_.Parse (p ++ e)).1)]) := by
  have hF : FATAL + 1 = SIZE_MOD := by decide
  have hepos : 0 < e.length := List.length_pos.2 he
  have hp : readAll srv p = ⟨[], 0, false⟩ := by
    apply readFrames_stop
    by_cases h0 : (srv.head_factory_.Parse p).1 = 0
    · exact Or.inl h0
    · right
      rw [← hS p e h0, hfull, List.length_append]
      omega
  have hwhole : readAll srv (p ++ e) = ⟨[((srv.head_factory_.Parse (p ++ e)).2,
      (p ++ e).drop (srv.head_factory_.Parse (p ++ e)).1)],
      (p ++ e).length, false⟩ := by
    have hc : ¬ ((srv.head_factory_.Parse (p ++ e)).1 = 0 ∨ (p ++ e).length <
        (srv.head_factory_.Parse (p ++ e)).1 +
          (srv.head_factory_.Parse (p ++ e)).2.follow_bytes) := by
      rw [hfull]; exact fun h => h.elim hh (by omega)
    have hnext : readAll srv (p ++ e) = _ := readFrames_next srv _ (p ++ e) service hc hreg
    have hrest : readFrames srv (p ++ e).length ((p ++ e).drop
        ((srv.head_factory_.Parse (p ++ e)).1 +
          (srv.head_factory_.Parse (p ++ e)).2.follow_bytes)) = ⟨[], 0, false⟩ := by
      rw [hfull, List.drop_length]
      cases (p ++ e).length with
      | zero => rfl
      | succ k => exact readFrames_stop srv k [] (by simp only [List.length_nil]; omega)
    rw [hnext, hrest]
    have htake : ((p ++ e).drop (srv.head_factory_.Parse (p ++ e)).1).take
        (srv.head_factory_.Parse (p ++ e)).2.follow_bytes =
        (p ++ e).drop (srv.head_factory_.Parse (p ++ e)).1 := by
      apply List.take_of_length_le
      rw [List.length_drop]
      omega
    rw [htake, hfull]
    rfl
  constructor
  · have hlp : p.length < SIZE_MOD := by
      rw [List.length_append] at hlen; omega
    obtain ⟨⟨tr, h1, h2⟩, -⟩ :=
      OnReceiveData_readAll srv tp sess_id p hlp hNW (p.length + 1) (by omega)
    rw [hp] at h1 h2
    exact ⟨tr, by simpa [returnOf] using h1, h2⟩
  · have h0 : readAll srv [] = ⟨[], 0, false⟩ := by
      apply readFrames_stop
      simp only [List.length_nil]
      omega
    obtain ⟨tr, h1, h2⟩ := deliverAll_readAll srv tp sess_id hS hNW [p, e] [] h0
      (by simpa [List.flatten] using hlen)
    refine ⟨tr, h1, ?_⟩
    rw [h2]
    simp only [List.flatten, List.append_nil, List.nil_append, hwhole]

/-- When `head_len + follow_bytes` wraps to `0` on a frame for a registered service, the loop
does not advance: from that state no amount of fuel lets `OnReceiveData` return. -/
theorem whileLoop_zero_advance (srv : ServerImpl) (tp sess_id : Nat) (data : List Byte)
    (st : LoopState) (service : IService)
    (hW : data.length < SIZE_MOD) (hinv : LoopInv data st)
    (hlt : st.consume < data.length)
    (hhead : (srv.head_factory_.Parse (st.buf.take st.len)).1 ≠ 0)
    (hzero : ((srv.head_factory_.Parse (st.buf.take st.len)).1 +
      (srv.head_factory_.Parse (st.buf.take st.len)).2.follow_bytes) % SIZE_MOD = 0)
    (hreg : find srv.services_ (srv.head_factory_.Parse (st.buf.take st.len)).2.service
      = some service) :
    ∀ fuel c, whileLoop srv tp sess_id data fuel ⟨st.consume, st.buf, st.len, c⟩ = none := by
  intro fuel
  induction fuel with
  | zero => intro c; rfl
  | succ n ih =>
    intro c
    have hok : (DispatchMsg srv
        ⟨sess_id, tp, (srv.head_factory_.Parse (st.buf.take st.len)).2⟩
        (st.buf.drop (srv.head_factory_.Parse (st.buf.take st.len)).1)
        (srv.head_factory_.Parse (st.buf.take st.len)).2.follow_bytes).1 = true := by
      rw [DispatchMsg_fst]
      simp [hreg]
    obtain ⟨st2, evs, hb, -⟩ := loopBody_next_of srv tp sess_id data
      ⟨st.consume, st.buf, st.len, c⟩ hlt hhead (by rw [hzero]; omega) hok
    obtain ⟨-, -, -, -, hc, hbuf, hl, hy, -⟩ :=
      loopBody_next srv tp sess_id data ⟨st.consume, st.buf, st.len, c⟩ st2 evs hb
    simp only [] at hc hbuf hl hy
    obtain ⟨h1, h2, h3⟩ := hinv
    have hc2 : st2.consume = st.consume := by
      rw [hc, hzero, Nat.add_zero]; exact Nat.mod_eq_of_lt (by omega)
    have hl2 : st2.len = st.len := by
      rw [hl, hc2, h3]
      have : data.length + SIZE_MOD - st.consume = (data.length - st.consume) + SIZE_MOD := by
        omega
      rw [this, Nat.add_mod_right]
      exact Nat.mod_eq_of_lt (by omega)
    have hst2 : st2 = ⟨st.consume, st.buf, st.len, c + 1⟩ := by
      obtain ⟨a, b, l, y⟩ := st2
      simp only [] at hc2 hl2 hbuf hy
      rw [hc2] at hbuf
      rw [hc2, hl2, hbuf, hy, ← h2]
    simp only [whileLoop, hb, hst2, ih (c + 1), Option.map_none']

/-- The twelve header bytes of a one-way call declaring `2 ^ 64 - 12` follow-bytes: the sum
wraps to `0` and `OnReceiveData` never returns. -/
theorem whileLoop_zero_advance_witness :
    ∀ fuel, OnReceiveData demoServer 7 1 demoZeroAdvance fuel = none :=
  fun fuel => whileLoop_zero_advance demoServer 7 1 demoZeroAdvance
    ⟨0, demoZeroAdvance, demoZeroAdvance.length, 0⟩ echoService
    (by decide) ⟨by decide, rfl, rfl⟩ (by decide) (by decide) (by decide) rfl fuel 0

/-! ## A header implementation without wrap-around -/

theorem leNat_lt (l : List Byte) : leNat l < 256 ^ l.length := by
  induction l with
  | nil => simp [leNat]
  | cons b bs ih =>
    simp only [leNat, List.length_cons, Nat.pow_succ]
    have := Nat.mod_lt b (show 0 < 256 by decide)
    omega

theorem demoServer4_NoWrap : NoWrap demoServer4 := by
  intro w
  show (demoParse4 w).1 + (demoParse4 w).2.follow_bytes < SIZE_MOD
  unfold demoParse4
  split
  · decide
  · simp only []
    have h1 := leNat_lt ((w.drop 4).take 4)
    have h2 : ((w.drop 4).take 4).length ≤ 4 := by
      rw [List.length_take]; omega
    have h3 : 256 ^ ((w.drop 4).take 4).length ≤ 256 ^ 4 :=
      Nat.pow_le_pow_right (by decide) h2
    have h4 : (256 : Nat) ^ 4 + 8 < SIZE_MOD := by decide
    omega

theorem demoServer4_ParseStable : ParseStable demoServer4 := by
  intro w e h
  show demoParse4 (w ++ e) = demoParse4 w
  have hw : ¬ w.length < 8 := by
    intro hlt
    apply h
    show (demoParse4 w).1 = 0
    simp [demoParse4, hlt]
  have hwe : ¬ (w ++ e).length < 8 := by
    rw [List.length_append]; omega
  simp only [demoParse4, hw, hwe, if_false]
  rw [List.getD_append w e 0 0 (by omega), List.getD_append w e 0 1 (by omega),
    List.getD_append w e 0 2 (by omega), List.getD_append w e 0 3 (by omega),
    List.drop_append_of_le_length (by omega),
    List.take_append_of_le_length (by rw [List.length_drop]; omega)]

/-- The eight-byte header implementation meets the hypotheses of the chunking theorem: the
frame `demoFrame4` cut after three bytes and after nine bytes is dispatched alike. -/
theorem chunking_independent_of_NoWrap_witness :
    ∃ tr1 tr2,
      deliverAll demoServer4 7 1 ⟨[], false⟩ [[1, 42, 83], [77, 2, 0, 0, 0, 9, 8]] = some tr1 ∧
      deliverAll demoServer4 7 1 ⟨[], false⟩ [[1, 42, 83, 77, 2, 0, 0, 0, 9], [8]] = some tr2 ∧
      dispatched tr1 = dispatched tr2 ∧
      dispatched tr1 = (readAll demoServer4 demoFrame4).frames :=
  chunking_independent_of_NoWrap demoServer4 7 1 demoServer4_ParseStable demoServer4_NoWrap
    [[1, 42, 83], [77, 2, 0, 0, 0, 9, 8]] [[1, 42, 83, 77, 2, 0, 0, 0, 9], [8]]
    (by decide) (by decide)

/-- The first nine bytes of `demoFrame4` dispatch nothing; the last byte
completes the frame, which is dispatched once. -/
theorem split_frame_dispatched_once_witness :
    (∃ tr, OnReceiveData demoServer4 7 1 [1, 42, 83, 77, 2, 0, 0, 0, 9] 10 = some (0, tr) ∧
      dispatched tr = []) ∧
    (∃ tr, deliverAll demoServer4 7 1 ⟨[], false⟩ [[1, 42, 83, 77, 2, 0, 0, 0, 9], [8]]
        = some tr ∧
      dispatched tr = [(⟨42, eHeaderType.oneway_request, "S", "M", 2⟩, [9, 8])]) :=
  split_frame_dispatched_once demoServer4 7 1 demoServer4_ParseStable demoServer4_NoWrap
    [1, 42, 83, 77, 2, 0, 0, 0, 9] [8] echoService (by decide) (by decide) (by decide) rfl
    (by decide)

/-- The loop on the first nine bytes of `demoFrame4` stops without dispatching. -/
theorem incomplete_frame_not_dispatched_witness :
    loopBody demoServer4 7 1 [1, 42, 83, 77, 2, 0, 0, 0, 9]
      ⟨0, [1, 42, 83, 77, 2, 0, 0, 0, 9], 9, 0⟩ = Step.brk :=
  (incomplete_frame_not_dispatched demoServer4 7 1 [1, 42, 83, 77, 2, 0, 0, 0, 9]
    ⟨0, [1, 42, 83, 77, 2, 0, 0, 0, 9], 9, 0⟩ (by decide) (Or.inr (by decide))).1

/-- On `demoFrame4` followed by three bytes of a next header, `OnReceiveData` returns the ten
bytes of the one complete frame. -/
theorem OnReceiveData_readAll_witness :
    (∃ tr, OnReceiveData demoServer4 7 1 (demoFrame4 ++ [1, 43, 83]) 14 = some (10, tr) ∧
      dispatched tr = [(⟨42, eHeaderType.oneway_request, "S", "M", 2⟩, [9, 8])]) ∧
    (readAll demoServer4 (demoFrame4 ++ [1, 43, 83])).consumed ≤ 13 :=
  OnReceiveData_readAll demoServer4 7 1 (demoFrame4 ++ [1, 43, 83]) (by decide)
    demoServer4_NoWrap 14 (by decide)

end ucorf
